import Mathlib

/-!
Shallow embedding of the conversation/tool orchestration core of the
`opencode_rs` repository (files `src/session.rs`, `src/app.rs`,
`src/db.rs`, `src/llm/openai_client.rs`).

Modelling conventions:
* `Uuid` values are abstracted as `Nat`; fresh UUIDs and `Utc::now()`
  timestamps are drawn from a single ticking counter (`App.clock`), so
  each freshly constructed message gets a new id/timestamp.
* The OpenAI chat endpoint is an oracle `Nat → LLMOutcome`; the orchestration
  functions carry the index of the next model call, so "performs no model
  call" is visible as the index being returned unchanged.
* The three filesystem tools are an oracle record `ToolEnv`; the dispatch on
  tool names (including the unknown-tool error) is embedded from the code.
* Recursion of `send_current_session_to_llm` (the resend loop) is
  fuel-indexed; running out of fuel returns the state unchanged.
* The sqlite message table is a list of rows; the serde-json TEXT columns are
  modelled at the JSON-value level by the `Json` inductive.
-/

abbrev Uuid := Nat

inductive Author
  | user
  | assistant
  | system
  | tool
deriving DecidableEq, Repr

inductive ContentPart
  | text (s : String)
  | toolRequest (id name input : String)
  | toolResult (id name output : String) (is_error : Bool)
deriving DecidableEq, Repr

structure Message where
  id : Uuid
  author : Author
  parts : List ContentPart
  timestamp : Nat
deriving DecidableEq, Repr

structure Session where
  id : Uuid
  title : String
  messages : List Message
  created_at : Nat
  last_activity_at : Nat
deriving DecidableEq, Repr

/-- Embeds `Session::add_message` (session.rs): push the message and bump
`last_activity_at` to the current time (`Utc::now()` passed explicitly). -/
def Session.add_message (s : Session) (m : Message) (now : Nat) : Session :=
  { s with messages := s.messages ++ [m], last_activity_at := now }

/-- Embeds `Session::new` (session.rs); the fresh uuid and `Utc::now()` are
explicit parameters. -/
def Session.mkNew (title : Option String) (fresh_id : Uuid) (now : Nat) : Session :=
  { id := fresh_id
    title := title.getD ("Session " ++ toString now)
    messages := []
    created_at := now
    last_activity_at := now }

inductive ToolPermissionScope
  | once
  | session
deriving DecidableEq, Repr

inductive ToolPermissionState
  | allowed
  | denied
deriving DecidableEq, Repr

structure PendingToolCall where
  call_id : String
  tool_name : String
  arguments_json : String
deriving DecidableEq, Repr

structure FunctionCall where
  name : String
  arguments : String
deriving DecidableEq, Repr

structure ToolCallRequestPart where
  id : String
  type : String
  function : FunctionCall
deriving DecidableEq, Repr

/-- Association-list model of `std::collections::HashMap`: lookup. -/
def assocFind {α β : Type} [DecidableEq α] : List (α × β) → α → Option β
  | [], _ => none
  | (k, v) :: rest, k' => if k = k' then some v else assocFind rest k'

/-- Association-list model of `std::collections::HashMap`: insert-or-replace. -/
def assocInsert {α β : Type} [DecidableEq α] : List (α × β) → α → β → List (α × β)
  | [], k, v => [(k, v)]
  | (k0, v0) :: rest, k, v =>
      if k0 = k then (k, v) :: rest else (k0, v0) :: assocInsert rest k v

/-- State of the orchestrator, from `struct App` in app.rs.  `api_key` stands
for `config.providers.openai.api_key`; `clock` is the fresh-uuid/`Utc::now()`
supply. -/
structure App where
  sessions : List (Uuid × Session)
  active_session_id : Option Uuid
  tool_session_permissions : List ((String × Uuid) × ToolPermissionState)
  pending_tool_call_request : Option PendingToolCall
  api_key : Option String
  clock : Nat
deriving DecidableEq, Repr

/-- Embeds `App::get_active_session`. -/
def App.get_active_session (a : App) : Option Session :=
  a.active_session_id.bind (fun sid => assocFind a.sessions sid)

/-- Embeds `App::check_tool_session_permission`. -/
def App.check_tool_session_permission (a : App) (tool_name : String) :
    Option ToolPermissionState :=
  a.active_session_id.bind
    (fun sid => assocFind a.tool_session_permissions (tool_name, sid))

/-- Embeds `App::set_tool_session_permission`. -/
def App.set_tool_session_permission (a : App) (tool_name : String)
    (state : ToolPermissionState) : App :=
  match a.active_session_id with
  | none => a
  | some sid =>
      { a with tool_session_permissions :=
          assocInsert a.tool_session_permissions (tool_name, sid) state }

/-- Embeds `App::add_message_to_active_session`: construct a `Message` (fresh
id and timestamp from the clock), append it to the active session, bump
`last_activity_at`.  A missing active session makes it a no-op, as in the
code. -/
def App.add_message_to_active_session (a : App) (author : Author)
    (parts : List ContentPart) : App :=
  match a.active_session_id with
  | none => a
  | some sid =>
      match assocFind a.sessions sid with
      | none => a
      | some s =>
          let m : Message :=
            { id := a.clock, author := author, parts := parts, timestamp := a.clock }
          { a with
              sessions := assocInsert a.sessions sid (s.add_message m a.clock)
              clock := a.clock + 1 }

/-- Embeds `App::add_text_message_to_active_session`. -/
def App.add_text_message_to_active_session (a : App) (author : Author)
    (text : String) : App :=
  a.add_message_to_active_session author [ContentPart.text text]

/-- Embeds `App::new_session` (the db write is an external effect). -/
def App.new_session (a : App) (title : Option String) : Uuid × App :=
  let s := Session.mkNew title a.clock a.clock
  (s.id,
   { a with
       sessions := assocInsert a.sessions s.id s
       active_session_id := some s.id
       clock := a.clock + 1 })

/-- Embeds `App::switch_session`. -/
def App.switch_session (a : App) (session_id : Uuid) : App × Bool :=
  if (assocFind a.sessions session_id).isSome then
    ({ a with active_session_id := some session_id
              pending_tool_call_request := none }, true)
  else
    (a, false)

/-- Rust `Iterator::max_by_key` over session values: returns the last maximal
element in iteration order (ties favour the later element). -/
def maxByLastActivity (l : List Session) : Option Session :=
  List.foldl
    (fun acc s =>
      match acc with
      | none => some s
      | some m => if m.last_activity_at ≤ s.last_activity_at then some s else some m)
    none l

/-- Embeds `App::new` (app.rs lines 40-61).  The sessions returned by
`db::load_sessions` and the configured api key are inputs; `clock0` seeds the
uuid/time supply.  Includes the dead fallback branch of the source. -/
def App.mkNew (loaded : List Session) (api_key : Option String) (clock0 : Nat) : App :=
  let a1 : App :=
    { sessions := List.foldl (fun m s => assocInsert m s.id s) [] loaded
      active_session_id := none
      tool_session_permissions := []
      pending_tool_call_request := none
      api_key := api_key
      clock := clock0 }
  if a1.sessions.isEmpty then
    (a1.new_session (some "Default Session")).2
  else
    let a2 := { a1 with active_session_id :=
      (maxByLastActivity (a1.sessions.map Prod.snd)).map Session.id }
    if a2.active_session_id.isNone ∧ ¬ a1.sessions.isEmpty then
      { a2 with active_session_id := (a1.sessions.map Prod.fst).head? }
    else
      a2

/-- Oracle for the three registered filesystem tools (fs_tools.rs); each maps
the JSON argument string to `Ok(text)` or `Err(text)`. -/
structure ToolEnv where
  run_ls : String → Except String String
  run_view : String → Except String String
  run_write : String → Except String String

/-- Embeds the tool-name dispatch inside `App::execute_tool_calls_and_resend`
(app.rs lines 196-204), including the unknown-tool error branch. -/
def dispatchTool (env : ToolEnv) (tool_name tool_args_json : String) :
    Except String String :=
  if tool_name = "ls" then env.run_ls tool_args_json
  else if tool_name = "view" then env.run_view tool_args_json
  else if tool_name = "write" then env.run_write tool_args_json
  else Except.error ("Unknown tool: " ++ tool_name)

/-- The fields of the model's choice message that the orchestrator reads. -/
structure ChatMessageResp where
  content : Option String
  tool_calls : Option (List ToolCallRequestPart)
deriving DecidableEq, Repr

/-- One outcome of a `chat_completion` round trip. -/
inductive LLMOutcome
  | fail (e : String)
  | ok (choices : List ChatMessageResp)
deriving DecidableEq, Repr

/-- Embeds the decoding of the assistant turn into content parts (app.rs
lines 141-143): a text part if the response carries non-empty text, then one
`ToolRequest` part per requested call, in the model's order. -/
def assistantParts (content : Option String)
    (tool_calls : Option (List ToolCallRequestPart)) : List ContentPart :=
  (match content with
   | some t => if t.isEmpty then [] else [ContentPart.text t]
   | none => []) ++
  (match tool_calls with
   | some reqs =>
       reqs.map (fun r => ContentPart.toolRequest r.id r.function.name r.function.arguments)
   | none => [])

/-- One iteration of the loop in `App::execute_tool_calls_and_resend`
(app.rs lines 190-209): dispatch the request, then append one Tool-authored
message holding a single `ToolResult` carrying the request's call id and
tool name, the output text, and the error flag. -/
def executeOneToolCall (env : ToolEnv) (a : App) (req : ToolCallRequestPart) : App :=
  let run := dispatchTool env req.function.name req.function.arguments
  let out := match run with
    | Except.ok s => (s, false)
    | Except.error s => (s, true)
  a.add_message_to_active_session Author.tool
    [ContentPart.toolResult req.id req.function.name out.1 out.2]

/-- The per-request loop of `App::execute_tool_calls_and_resend`, processing
the batch strictly sequentially in list order. -/
def executeToolCallsCore (env : ToolEnv) (a : App) :
    List ToolCallRequestPart → App
  | [] => a
  | req :: rest => executeToolCallsCore env (executeOneToolCall env a req) rest

/-- Embeds `App::send_current_session_to_llm` (app.rs lines 114-184), the
`advance` operation of the spec.  Fuel bounds the resend recursion; `idx` is
the index of the next model call in the oracle stream.  In the cached-Allowed
branch the source calls `execute_tool_calls_and_resend` with a batch that is
known non-empty, which there equals running the per-request loop and then
recursing; that composition is inlined here (and equated with the standalone
`execute_tool_calls_and_resend` below). -/
def send_current_session_to_llm (env : ToolEnv) (oracle : Nat → LLMOutcome) :
    Nat → App → Nat → App × Nat
  | 0, a, idx => (a, idx)
  | fuel + 1, a, idx =>
    if a.pending_tool_call_request.isSome then
      (a.add_text_message_to_active_session Author.system
        "[Info] Tool call pending user permission. Please respond to the dialog first.",
       idx)
    else if a.api_key.isNone then
      (a.add_text_message_to_active_session Author.system
        "Error: OpenAI API key not configured.", idx)
    else
      match a.get_active_session with
      | none => (a, idx)
      | some s =>
        if s.messages.isEmpty then (a, idx)
        else
          match oracle idx with
          | LLMOutcome.fail e =>
              (a.add_text_message_to_active_session Author.system
                ("Error: LLM request failed: " ++ e), idx + 1)
          | LLMOutcome.ok choices =>
            match choices with
            | [] =>
                (a.add_text_message_to_active_session Author.system
                  "Error: No response choices from LLM.", idx + 1)
            | choice :: _ =>
              let parts := assistantParts choice.content choice.tool_calls
              let a1 := if parts.isEmpty then a
                else a.add_message_to_active_session Author.assistant parts
              match choice.tool_calls with
              | none => (a1, idx + 1)
              | some actual_tool_calls =>
                match actual_tool_calls with
                | [] => (a1, idx + 1)
                | first_req :: _ =>
                  match a1.check_tool_session_permission first_req.function.name with
                  | some ToolPermissionState.allowed =>
                      send_current_session_to_llm env oracle fuel
                        (executeToolCallsCore env a1 actual_tool_calls) (idx + 1)
                  | some ToolPermissionState.denied =>
                      let a2 := a1.add_message_to_active_session Author.tool
                        [ContentPart.toolResult first_req.id first_req.function.name
                          "Tool execution denied by session policy." true]
                      send_current_session_to_llm env oracle fuel a2 (idx + 1)
                  | none =>
                      let pending := PendingToolCall.mk first_req.id
                        first_req.function.name first_req.function.arguments
                      ({ a1 with pending_tool_call_request := some pending }, idx + 1)

/-- Embeds `App::execute_tool_calls_and_resend` (app.rs lines 186-215): run
the per-request loop, then resend to the model exactly once when the batch
was non-empty. -/
def execute_tool_calls_and_resend (env : ToolEnv) (oracle : Nat → LLMOutcome)
    (fuel : Nat) (a : App) (tool_calls : List ToolCallRequestPart) (idx : Nat) :
    App × Nat :=
  let a1 := executeToolCallsCore env a tool_calls
  if tool_calls.isEmpty then (a1, idx)
  else send_current_session_to_llm env oracle fuel a1 idx

/-- Embeds `App::resolve_pending_tool_call` (app.rs lines 217-249). -/
def resolve_pending_tool_call (env : ToolEnv) (oracle : Nat → LLMOutcome)
    (fuel : Nat) (a : App) (allow : Bool)
    (scope_for_allow : Option ToolPermissionScope) (idx : Nat) : App × Nat :=
  match a.pending_tool_call_request with
  | none => (a, idx)
  | some pending_call =>
    let a0 := { a with pending_tool_call_request := none }
    if allow then
      let a1 :=
        if scope_for_allow = some ToolPermissionScope.session then
          a0.set_tool_session_permission pending_call.tool_name ToolPermissionState.allowed
        else a0
      execute_tool_calls_and_resend env oracle fuel a1
        [{ id := pending_call.call_id
           type := "function"
           function := { name := pending_call.tool_name
                         arguments := pending_call.arguments_json } }] idx
    else
      let a1 := a0.add_message_to_active_session Author.tool
        [ContentPart.toolResult pending_call.call_id pending_call.tool_name
          "Tool execution denied by user." true]
      send_current_session_to_llm env oracle fuel a1 idx

/-- Specification-side description of the single `ToolResult` part produced
for a request: call id and tool name copied from the request, output and
error flag from the dispatch outcome. -/
def toolResultFor (env : ToolEnv) (req : ToolCallRequestPart) : ContentPart :=
  match dispatchTool env req.function.name req.function.arguments with
  | Except.ok s => ContentPart.toolResult req.id req.function.name s false
  | Except.error s => ContentPart.toolResult req.id req.function.name s true

/-- Specification-side description of the Tool-authored messages appended for
a batch, one per request in list order, with consecutive fresh ids and
timestamps starting at `clock`. -/
def toolMsgsFrom (env : ToolEnv) (clock : Nat) :
    List ToolCallRequestPart → List Message
  | [] => []
  | req :: rest =>
      { id := clock, author := Author.tool, parts := [toolResultFor env req],
        timestamp := clock } :: toolMsgsFrom env (clock + 1) rest

/-- Mirror of `DbAuthor` (db.rs). -/
inductive DbAuthor
  | user
  | assistant
  | system
  | tool
deriving DecidableEq, Repr

/-- Embeds `impl From<AppAuthor> for DbAuthor`. -/
def DbAuthor.ofAuthor : Author → DbAuthor
  | Author.user => DbAuthor.user
  | Author.assistant => DbAuthor.assistant
  | Author.system => DbAuthor.system
  | Author.tool => DbAuthor.tool

/-- Embeds `impl From<DbAuthor> for AppAuthor`. -/
def DbAuthor.toAuthor : DbAuthor → Author
  | DbAuthor.user => Author.user
  | DbAuthor.assistant => Author.assistant
  | DbAuthor.system => Author.system
  | DbAuthor.tool => Author.tool

/-- Mirror of `DbContentPart` (db.rs). -/
inductive DbContentPart
  | text (s : String)
  | toolRequest (id name input : String)
  | toolResult (id name output : String) (is_error : Bool)
deriving DecidableEq, Repr

/-- Embeds `impl From<AppContentPart> for DbContentPart`. -/
def DbContentPart.ofPart : ContentPart → DbContentPart
  | ContentPart.text s => DbContentPart.text s
  | ContentPart.toolRequest id nm inp => DbContentPart.toolRequest id nm inp
  | ContentPart.toolResult id nm out e => DbContentPart.toolResult id nm out e

/-- Embeds `impl From<DbContentPart> for AppContentPart`. -/
def DbContentPart.toPart : DbContentPart → ContentPart
  | DbContentPart.text s => ContentPart.text s
  | DbContentPart.toolRequest id nm inp => ContentPart.toolRequest id nm inp
  | DbContentPart.toolResult id nm out e => ContentPart.toolResult id nm out e

/-- JSON values, the level at which the serde-json TEXT columns are
modelled (the string printing/parsing layer is the external library). -/
inductive Json
  | str (s : String)
  | jbool (b : Bool)
  | obj (fields : List (String × Json))
  | arr (elems : List Json)

/-- serde-json encoding of `DbAuthor` (externally tagged unit variants). -/
def encodeDbAuthor : DbAuthor → Json
  | DbAuthor.user => Json.str "User"
  | DbAuthor.assistant => Json.str "Assistant"
  | DbAuthor.system => Json.str "System"
  | DbAuthor.tool => Json.str "Tool"

/-- serde-json decoding of `DbAuthor`. -/
def decodeDbAuthor : Json → Option DbAuthor
  | Json.str "User" => some DbAuthor.user
  | Json.str "Assistant" => some DbAuthor.assistant
  | Json.str "System" => some DbAuthor.system
  | Json.str "Tool" => some DbAuthor.tool
  | _ => none

/-- serde-json encoding of `DbContentPart` (externally tagged variants). -/
def encodeDbContentPart : DbContentPart → Json
  | DbContentPart.text s => Json.obj [("Text", Json.str s)]
  | DbContentPart.toolRequest id nm inp =>
      Json.obj [("ToolRequest", Json.obj
        [("id", Json.str id), ("name", Json.str nm), ("input", Json.str inp)])]
  | DbContentPart.toolResult id nm out e =>
      Json.obj [("ToolResult", Json.obj
        [("id", Json.str id), ("name", Json.str nm), ("output", Json.str out),
         ("is_error", Json.jbool e)])]

/-- serde-json decoding of `DbContentPart`. -/
def decodeDbContentPart : Json → Option DbContentPart
  | Json.obj [("Text", Json.str s)] => some (DbContentPart.text s)
  | Json.obj [("ToolRequest", Json.obj
      [("id", Json.str id), ("name", Json.str nm), ("input", Json.str inp)])] =>
      some (DbContentPart.toolRequest id nm inp)
  | Json.obj [("ToolResult", Json.obj
      [("id", Json.str id), ("name", Json.str nm), ("output", Json.str out),
       ("is_error", Json.jbool e)])] =>
      some (DbContentPart.toolResult id nm out e)
  | _ => none

/-- Elementwise decoding of a JSON array, failing on the first bad element
(serde's `Vec` deserialization). -/
def decodeDbPartList : List Json → Option (List DbContentPart)
  | [] => some []
  | j :: rest => do
      let p ← decodeDbContentPart j
      let ps ← decodeDbPartList rest
      pure (p :: ps)

/-- serde-json decoding of the `parts` column (`Vec<DbContentPart>`). -/
def decodeDbParts : Json → Option (List DbContentPart)
  | Json.arr elems => decodeDbPartList elems
  | _ => none

/-- One row of the `messages` table (db.rs migration).  The uuid and rfc3339
TEXT representations are abstracted to the underlying values; rfc3339 text of
UTC instants compares lexicographically exactly as the instants compare, so
`timestamp : Nat` with numeric order models the `ORDER BY timestamp ASC`. -/
structure MessageRow where
  id : Uuid
  session_id : Uuid
  author : Json
  parts : Json
  timestamp : Nat

/-- The row built by `db::save_message` for one message: author and parts
serialized, uuids and timestamp carried over. -/
def messageRowOf (session_id : Uuid) (message : Message) : MessageRow :=
  { id := message.id
    session_id := session_id
    author := encodeDbAuthor (DbAuthor.ofAuthor message.author)
    parts := Json.arr ((message.parts.map DbContentPart.ofPart).map
      encodeDbContentPart)
    timestamp := message.timestamp }

/-- Embeds `db::save_message`: serialize the author and parts and INSERT one
row (insertion appends to the table). -/
def save_message (table : List MessageRow) (session_id : Uuid)
    (message : Message) : List MessageRow :=
  table ++ [messageRowOf session_id message]

/-- Timestamp order on message rows, the `ORDER BY timestamp ASC` key. -/
def rowLe (r1 r2 : MessageRow) : Prop := r1.timestamp ≤ r2.timestamp

instance : DecidableRel rowLe := fun r1 r2 => Nat.decLe r1.timestamp r2.timestamp

/-- The per-row decoding step of `db::load_messages_for_session`: deserialize
the author and parts columns and rebuild the message; a decode failure is a
load error. -/
def decodeMessageRow (row : MessageRow) : Option Message := do
  let da ← decodeDbAuthor row.author
  let dps ← decodeDbParts row.parts
  pure (Message.mk row.id da.toAuthor (dps.map DbContentPart.toPart)
    row.timestamp)

/-- The row-decoding loop of `db::load_messages_for_session`: decode each
fetched row in order, failing on the first bad row. -/
def decodeRows : List MessageRow → Option (List Message)
  | [] => some []
  | row :: rest => do
      let m ← decodeMessageRow row
      let ms ← decodeRows rest
      pure (m :: ms)

/-- Embeds `db::load_messages_for_session`: select the rows of the session,
order by timestamp ascending (a stable sort models the engine), and decode
each row back into a `Message`; any decode failure fails the whole load. -/
def load_messages_for_session (table : List MessageRow) (session_id : Uuid) :
    Option (List Message) :=
  let rows := List.insertionSort rowLe
    (table.filter (fun r => r.session_id = session_id))
  decodeRows rows

/-- Wire-format chat message (openai_client.rs `ChatMessage`). -/
structure ChatMessage where
  role : String
  content : Option String
  tool_calls : Option (List ToolCallRequestPart)
  tool_call_id : Option String
  name : Option String
deriving DecidableEq, Repr

/-- Role string for each author (openai_client.rs lines 160-165). -/
def roleOf : Author → String
  | Author.user => "user"
  | Author.assistant => "assistant"
  | Author.system => "system"
  | Author.tool => "tool"

/-- Tool-role field extraction (openai_client.rs lines 179-188): the first
`ToolResult` part supplies `tool_call_id`, `name` and the text, then the loop
breaks. -/
def gatherToolFields : List ContentPart → Option String × Option String × String
  | [] => (none, none, "")
  | ContentPart.toolResult id nm out _ :: _ => (some id, some nm, out)
  | _ :: rest => gatherToolFields rest

/-- Text concatenation for user/system messages (openai_client.rs 207-214). -/
def gatherTextOnly : List ContentPart → String
  | [] => ""
  | ContentPart.text t :: rest => t ++ gatherTextOnly rest
  | _ :: rest => gatherTextOnly rest

/-- Assistant-role extraction (openai_client.rs 189-206): concatenated text
and the tool-call parts in order. -/
def gatherAssistantFields : List ContentPart → String × List ToolCallRequestPart
  | [] => ("", [])
  | p :: rest =>
      let acc := gatherAssistantFields rest
      match p with
      | ContentPart.text t => (t ++ acc.1, acc.2)
      | ContentPart.toolRequest id nm inp =>
          (acc.1, ToolCallRequestPart.mk id "function" (FunctionCall.mk nm inp) :: acc.2)
      | _ => acc

/-- Embeds the per-message body of `OpenAIClient::convert_messages`
(openai_client.rs lines 158-236), including the content-presence fixups. -/
def convert_message (m : Message) : ChatMessage :=
  let role := roleOf m.author
  let tf : ChatMessage × String :=
    match m.author with
    | Author.tool =>
        let g := gatherToolFields m.parts
        (ChatMessage.mk role none none g.1 g.2.1, g.2.2)
    | Author.assistant =>
        let g := gatherAssistantFields m.parts
        (ChatMessage.mk role none (if g.2.isEmpty then none else some g.2) none none,
         g.1)
    | _ => (ChatMessage.mk role none none none none, gatherTextOnly m.parts)
  let msg1 := if tf.2.isEmpty then tf.1 else { tf.1 with content := some tf.2 }
  let msg2 :=
    if (msg1.role = "user" ∨ msg1.role = "system" ∨ msg1.role = "tool")
        ∧ msg1.content.isNone
    then { msg1 with content := some "" } else msg1
  if msg2.role = "assistant" ∧ msg2.tool_calls.isSome ∧ msg2.content = some ""
  then { msg2 with content := none } else msg2

/-- Embeds `OpenAIClient::convert_messages`. -/
def convert_messages (app_messages : List Message) : List ChatMessage :=
  app_messages.map convert_message

/-- A sequence of `Session::add_message` calls, each with its `Utc::now()`
reading. -/
def Session.addAll (s : Session) (l : List (Message × Nat)) : Session :=
  List.foldl (fun acc p => acc.add_message p.1 p.2) s l

/-- Concrete tool oracle for closed instances: `ls` succeeds, `view` fails,
`write` succeeds. -/
def envFx : ToolEnv :=
  { run_ls := fun args => Except.ok ("listing " ++ args)
    run_view := fun _ => Except.error "no such file"
    run_write := fun args => Except.ok ("wrote " ++ args) }

/-- Model oracle that always fails the transport. -/
def oracleFailFx : Nat → LLMOutcome := fun _ => LLMOutcome.fail "boom"

/-- A concrete `ls` tool-call request. -/
def callLsFx : ToolCallRequestPart :=
  { id := "c1", type := "function", function := { name := "ls", arguments := "{}" } }

/-- Model oracle whose first answer requests the `ls` tool call. -/
def oracleToolFx : Nat → LLMOutcome := fun i =>
  if i = 0 then LLMOutcome.ok [{ content := some "", tool_calls := some [callLsFx] }]
  else LLMOutcome.fail "boom"

/-- A concrete tool-call request for a tool name with no registered handler. -/
def callDelFx : ToolCallRequestPart :=
  { id := "c2", type := "function",
    function := { name := "delete", arguments := "{}" } }

/-- A concrete user message. -/
def msgHiFx : Message :=
  { id := 1, author := Author.user, parts := [ContentPart.text "hi"], timestamp := 1 }

/-- A concrete assistant message carrying only a tool request. -/
def msgToolReqFx : Message :=
  { id := 2, author := Author.assistant,
    parts := [ContentPart.toolRequest "c1" "ls" "{}"], timestamp := 2 }

/-- A concrete session holding one user message. -/
def sessFx : Session :=
  { id := 7, title := "t", messages := [msgHiFx], created_at := 0, last_activity_at := 1 }

/-- A concrete session with no messages. -/
def sessEmptyFx : Session :=
  { id := 7, title := "t", messages := [], created_at := 0, last_activity_at := 0 }

/-- Base concrete app state: one active session, api key configured. -/
def appFx : App :=
  { sessions := [(7, sessFx)], active_session_id := some 7,
    tool_session_permissions := [], pending_tool_call_request := none,
    api_key := some "k", clock := 10 }

/-- Concrete app state with a pending tool call. -/
def appPendingFx : App :=
  { appFx with pending_tool_call_request := some (PendingToolCall.mk "c1" "ls" "{}") }

/-- Concrete app state with a cached Denied permission for `ls`. -/
def appDeniedFx : App :=
  { appFx with tool_session_permissions := [(("ls", 7), ToolPermissionState.denied)] }

/-- Concrete app state with an empty active session and no api key. -/
def appNoKeyEmptyFx : App :=
  { sessions := [(7, sessEmptyFx)], active_session_id := some 7,
    tool_session_permissions := [], pending_tool_call_request := none,
    api_key := none, clock := 10 }

/-- Concrete app state with an empty active session and an api key. -/
def appEmptyKeyFx : App :=
  { appNoKeyEmptyFx with api_key := some "k" }

/-- Looking up the key just inserted returns the inserted value. -/
theorem assocFind_insert_self {α β : Type} [DecidableEq α]
    (l : List (α × β)) (k : α) (v : β) :
    assocFind (assocInsert l k v) k = some v := by
  induction l with
  | nil => simp [assocInsert, assocFind]
  | cons hd tl ih =>
      obtain ⟨k0, v0⟩ := hd
      by_cases h : k0 = k
      · simp [assocInsert, assocFind, h]
      · simp [assocInsert, assocFind, h, ih]

/-- Insertion leaves lookups at other keys unchanged. -/
theorem assocFind_insert_ne {α β : Type} [DecidableEq α]
    (l : List (α × β)) (k k1 : α) (v : β) (h : k ≠ k1) :
    assocFind (assocInsert l k v) k1 = assocFind l k1 := by
  induction l with
  | nil => simp [assocInsert, assocFind, h]
  | cons hd tl ih =>
      obtain ⟨k0, v0⟩ := hd
      by_cases h0 : k0 = k
      · subst h0
        simp [assocInsert, assocFind, h]
      · simp [assocInsert, assocFind, h0, ih]

/-- Every entry of an insert is the inserted pair or an old entry. -/
theorem mem_of_mem_assocInsert {α β : Type} [DecidableEq α]
    {l : List (α × β)} {k : α} {v : β} {p : α × β}
    (h : p ∈ assocInsert l k v) : p = (k, v) ∨ p ∈ l := by
  induction l with
  | nil => simpa [assocInsert] using h
  | cons hd tl ih =>
      obtain ⟨k0, v0⟩ := hd
      by_cases h0 : k0 = k
      · simp only [assocInsert, if_pos h0, List.mem_cons] at h
        rcases h with h1 | h1
        · exact Or.inl h1
        · exact Or.inr (List.mem_cons.2 (Or.inr h1))
      · simp only [assocInsert, if_neg h0, List.mem_cons] at h
        rcases h with h1 | h1
        · exact Or.inr (List.mem_cons.2 (Or.inl h1))
        · rcases ih h1 with h2 | h2
          · exact Or.inl h2
          · exact Or.inr (List.mem_cons.2 (Or.inr h2))

/-- Keys appearing after an insert were the inserted key or already present. -/
theorem mem_keys_assocInsert {α β : Type} [DecidableEq α]
    {l : List (α × β)} {k k1 : α} {v : β}
    (h : k1 ∈ (assocInsert l k v).map Prod.fst) :
    k1 = k ∨ k1 ∈ l.map Prod.fst := by
  rcases List.mem_map.1 h with ⟨p, hp, hk⟩
  rcases mem_of_mem_assocInsert hp with h1 | h1
  · left
    rw [← hk, h1]
  · right
    exact List.mem_map.2 ⟨p, h1, hk⟩

/-- Insertion preserves distinctness of keys. -/
theorem assocInsert_keys_nodup {α β : Type} [DecidableEq α]
    {l : List (α × β)} (k : α) (v : β)
    (h : (l.map Prod.fst).Nodup) :
    ((assocInsert l k v).map Prod.fst).Nodup := by
  induction l with
  | nil => simp [assocInsert]
  | cons hd tl ih =>
      obtain ⟨k0, v0⟩ := hd
      simp only [List.map_cons, List.nodup_cons] at h
      by_cases h0 : k0 = k
      · subst h0
        simpa [assocInsert, List.nodup_cons] using h
      · have htl := ih h.2
        simp only [assocInsert, if_neg h0, List.map_cons, List.nodup_cons]
        refine ⟨fun hmem => ?_, htl⟩
        rcases mem_keys_assocInsert hmem with h1 | h1
        · exact h0 h1
        · exact h.1 h1

/-- With distinct keys, membership determines the lookup result. -/
theorem assocFind_of_mem_nodup {α β : Type} [DecidableEq α]
    {l : List (α × β)} {k : α} {v : β}
    (hnd : (l.map Prod.fst).Nodup) (hmem : (k, v) ∈ l) :
    assocFind l k = some v := by
  induction l with
  | nil => simp at hmem
  | cons hd tl ih =>
      obtain ⟨k0, v0⟩ := hd
      simp only [List.map_cons, List.nodup_cons] at hnd
      rcases List.mem_cons.1 hmem with h | h
      · have h1 : k = k0 := congrArg Prod.fst h
        have h2 : v = v0 := congrArg Prod.snd h
        subst h1
        subst h2
        simp [assocFind]
      · have hk : k0 ≠ k := by
          intro hkk
          subst hkk
          exact hnd.1 (List.mem_map.2 ⟨(k0, v), h, rfl⟩)
        simp [assocFind, hk, ih hnd.2 h]

/-- Normal form of `add_message_to_active_session` when the active session
resolves: one freshly stamped message is appended to it, nothing else moves. -/
theorem add_msg_eq (a : App) (author : Author) (parts : List ContentPart)
    {sid : Uuid} {s : Session}
    (hsid : a.active_session_id = some sid)
    (hfind : assocFind a.sessions sid = some s) :
    a.add_message_to_active_session author parts =
      { a with
          sessions := assocInsert a.sessions sid
            (s.add_message (Message.mk a.clock author parts a.clock) a.clock)
          clock := a.clock + 1 } := by
  unfold App.add_message_to_active_session
  rw [hsid]
  simp only [hfind]


/-- Without an active session, appending a message is a no-op. -/
theorem add_msg_no_active (a : App) (author : Author) (parts : List ContentPart)
    (h : a.get_active_session = none) :
    a.add_message_to_active_session author parts = a := by
  unfold App.get_active_session at h
  unfold App.add_message_to_active_session
  cases hsid : a.active_session_id with
  | none => rfl
  | some sid =>
      rw [hsid] at h
      have h2 : assocFind a.sessions sid = none := h
      simp only [h2]

/-- Appending a message never touches the pending slot. -/
theorem add_msg_pending (a : App) (author : Author) (parts : List ContentPart) :
    (a.add_message_to_active_session author parts).pending_tool_call_request
      = a.pending_tool_call_request := by
  unfold App.add_message_to_active_session
  split
  · rfl
  · split
    · rfl
    · rfl

/-- Appending a message never touches the permission cache. -/
theorem add_msg_perms (a : App) (author : Author) (parts : List ContentPart) :
    (a.add_message_to_active_session author parts).tool_session_permissions
      = a.tool_session_permissions := by
  unfold App.add_message_to_active_session
  split
  · rfl
  · split
    · rfl
    · rfl

/-- Appending a message never changes which session is active. -/
theorem add_msg_active (a : App) (author : Author) (parts : List ContentPart) :
    (a.add_message_to_active_session author parts).active_session_id
      = a.active_session_id := by
  unfold App.add_message_to_active_session
  split
  · rfl
  · split
    · rfl
    · rfl

/-- Appending a message never changes the configured api key. -/
theorem add_msg_api (a : App) (author : Author) (parts : List ContentPart) :
    (a.add_message_to_active_session author parts).api_key = a.api_key := by
  unfold App.add_message_to_active_session
  split
  · rfl
  · split
    · rfl
    · rfl

/-- One tool-call execution step appends exactly the message described by
`toolResultFor`. -/
theorem executeOne_eq (env : ToolEnv) (a : App) (req : ToolCallRequestPart) :
    executeOneToolCall env a req
      = a.add_message_to_active_session Author.tool [toolResultFor env req] := by
  unfold executeOneToolCall toolResultFor
  cases dispatchTool env req.function.name req.function.arguments with
  | ok s => rfl
  | error s => rfl

/-- The batch-execution loop never touches the pending slot. -/
theorem core_pending (env : ToolEnv) (calls : List ToolCallRequestPart) (a : App) :
    (executeToolCallsCore env a calls).pending_tool_call_request
      = a.pending_tool_call_request := by
  induction calls generalizing a with
  | nil => rfl
  | cons req rest ih =>
      unfold executeToolCallsCore
      rw [ih, executeOne_eq, add_msg_pending]

/-- The batch-execution loop never touches the permission cache. -/
theorem core_perms (env : ToolEnv) (calls : List ToolCallRequestPart) (a : App) :
    (executeToolCallsCore env a calls).tool_session_permissions
      = a.tool_session_permissions := by
  induction calls generalizing a with
  | nil => rfl
  | cons req rest ih =>
      unfold executeToolCallsCore
      rw [ih, executeOne_eq, add_msg_perms]

/-- The batch-execution loop never changes which session is active. -/
theorem core_active (env : ToolEnv) (calls : List ToolCallRequestPart) (a : App) :
    (executeToolCallsCore env a calls).active_session_id = a.active_session_id := by
  induction calls generalizing a with
  | nil => rfl
  | cons req rest ih =>
      unfold executeToolCallsCore
      rw [ih, executeOne_eq, add_msg_active]

/-- The batch-execution loop never changes the configured api key. -/
theorem core_api (env : ToolEnv) (calls : List ToolCallRequestPart) (a : App) :
    (executeToolCallsCore env a calls).api_key = a.api_key := by
  induction calls generalizing a with
  | nil => rfl
  | cons req rest ih =>
      unfold executeToolCallsCore
      rw [ih, executeOne_eq, add_msg_api]

/-- The resend loop never mutates the permission cache: no branch of
`send_current_session_to_llm` writes to it. -/
theorem advance_perms (env : ToolEnv) (oracle : Nat → LLMOutcome) :
    ∀ (fuel : Nat) (a : App) (idx : Nat),
      (send_current_session_to_llm env oracle fuel a idx).1.tool_session_permissions
        = a.tool_session_permissions := by
  intro fuel
  induction fuel with
  | zero =>
      intro a idx
      rfl
  | succ fuel ih =>
      intro a idx
      unfold send_current_session_to_llm
      split
      · simp [App.add_text_message_to_active_session, add_msg_perms]
      · split
        · simp [App.add_text_message_to_active_session, add_msg_perms]
        · split
          · rfl
          · split
            · rfl
            · split
              · simp [App.add_text_message_to_active_session, add_msg_perms]
              · split
                · simp [App.add_text_message_to_active_session, add_msg_perms]
                · dsimp only
                  split
                  · split <;> simp [add_msg_perms]
                  · split
                    · split <;> simp [add_msg_perms]
                    · split
                      · rw [ih, core_perms]
                        split <;> simp [add_msg_perms]
                      · rw [ih, add_msg_perms]
                        split <;> simp [add_msg_perms]
                      · dsimp only
                        split <;> simp [add_msg_perms]

/-- Batch execution with resend never mutates the permission cache. -/
theorem etcr_perms (env : ToolEnv) (oracle : Nat → LLMOutcome) (fuel : Nat)
    (a : App) (calls : List ToolCallRequestPart) (idx : Nat) :
    (execute_tool_calls_and_resend env oracle fuel a calls idx).1.tool_session_permissions
      = a.tool_session_permissions := by
  unfold execute_tool_calls_and_resend
  dsimp only
  split
  · exact core_perms env calls a
  · rw [advance_perms, core_perms]

/-- C1: whenever a PendingToolCall is set, `advance`
(`send_current_session_to_llm`) performs no model call and changes no state
except appending one System-authored notice message to the active session;
the pending slot, the permission cache, and every session's prior messages
are unchanged. -/
theorem advance_rejected_when_pending (env : ToolEnv) (oracle : Nat → LLMOutcome)
    (fuel : Nat) (a : App) (idx : Nat) {p : PendingToolCall} {sid : Uuid} {s : Session}
    (hp : a.pending_tool_call_request = some p)
    (hsid : a.active_session_id = some sid)
    (hfind : assocFind a.sessions sid = some s) :
    send_current_session_to_llm env oracle (fuel + 1) a idx =
      ({ a with
           sessions := assocInsert a.sessions sid
             (s.add_message
               (Message.mk a.clock Author.system
                 [ContentPart.text "[Info] Tool call pending user permission. Please respond to the dialog first."]
                 a.clock) a.clock)
           clock := a.clock + 1 }, idx) := by
  have hcond : a.pending_tool_call_request.isSome = true := by
    rw [hp]
    rfl
  unfold send_current_session_to_llm
  rw [if_pos hcond]
  unfold App.add_text_message_to_active_session
  rw [add_msg_eq a Author.system _ hsid hfind]

/-- Witness for C1 at a concrete pending state. -/
theorem advance_rejected_when_pending_witness :
    send_current_session_to_llm envFx oracleFailFx 1 appPendingFx 5 =
      ({ appPendingFx with
           sessions := assocInsert appPendingFx.sessions 7
             (sessFx.add_message
               (Message.mk appPendingFx.clock Author.system
                 [ContentPart.text "[Info] Tool call pending user permission. Please respond to the dialog first."]
                 appPendingFx.clock) appPendingFx.clock)
           clock := appPendingFx.clock + 1 }, 5) :=
  advance_rejected_when_pending envFx oracleFailFx 0 appPendingFx 5 rfl rfl rfl

/-- C2: the permission cache is mutated only by an allow decision with
session scope; allow-once and deny leave it unchanged, and allow-session
inserts Allowed at the pending tool's name and the active session id. -/
theorem resolve_permission_cache (env : ToolEnv) (oracle : Nat → LLMOutcome)
    (fuel idx : Nat) (a : App) (scope : Option ToolPermissionScope)
    {p : PendingToolCall} {sid : Uuid}
    (hp : a.pending_tool_call_request = some p)
    (hsid : a.active_session_id = some sid) :
    ((resolve_pending_tool_call env oracle fuel a true
        (some ToolPermissionScope.session) idx).1.tool_session_permissions
      = assocInsert a.tool_session_permissions (p.tool_name, sid)
          ToolPermissionState.allowed)
    ∧ ((resolve_pending_tool_call env oracle fuel a true
        (some ToolPermissionScope.once) idx).1.tool_session_permissions
      = a.tool_session_permissions)
    ∧ ((resolve_pending_tool_call env oracle fuel a true
        none idx).1.tool_session_permissions
      = a.tool_session_permissions)
    ∧ ((resolve_pending_tool_call env oracle fuel a false
        scope idx).1.tool_session_permissions
      = a.tool_session_permissions) := by
  refine ⟨?_, ?_, ?_, ?_⟩
  · unfold resolve_pending_tool_call
    rw [hp]
    dsimp only
    rw [if_pos rfl, if_pos rfl, etcr_perms]
    unfold App.set_tool_session_permission
    rw [show ({ a with pending_tool_call_request := none } : App).active_session_id
          = a.active_session_id from rfl, hsid]
  · unfold resolve_pending_tool_call
    rw [hp]
    dsimp only
    rw [if_pos rfl, if_neg (by decide), etcr_perms]
  · unfold resolve_pending_tool_call
    rw [hp]
    dsimp only
    rw [if_pos rfl, if_neg (by decide), etcr_perms]
  · unfold resolve_pending_tool_call
    rw [hp]
    dsimp only
    rw [if_neg (by decide), advance_perms, add_msg_perms]

/-- Witness for C2 at a concrete pending state. -/
theorem resolve_permission_cache_witness :
    ((resolve_pending_tool_call envFx oracleFailFx 1 appPendingFx true
        (some ToolPermissionScope.session) 0).1.tool_session_permissions
      = assocInsert appPendingFx.tool_session_permissions ("ls", 7)
          ToolPermissionState.allowed)
    ∧ ((resolve_pending_tool_call envFx oracleFailFx 1 appPendingFx true
        (some ToolPermissionScope.once) 0).1.tool_session_permissions
      = appPendingFx.tool_session_permissions)
    ∧ ((resolve_pending_tool_call envFx oracleFailFx 1 appPendingFx true
        none 0).1.tool_session_permissions
      = appPendingFx.tool_session_permissions)
    ∧ ((resolve_pending_tool_call envFx oracleFailFx 1 appPendingFx false
        none 0).1.tool_session_permissions
      = appPendingFx.tool_session_permissions) :=
  resolve_permission_cache envFx oracleFailFx 1 0 appPendingFx none rfl rfl

/-- The active session resolves through the id and the registry. -/
theorem get_active_eq {a : App} {sid : Uuid} {s : Session}
    (hsid : a.active_session_id = some sid)
    (hfind : assocFind a.sessions sid = some s) :
    a.get_active_session = some s := by
  unfold App.get_active_session
  rw [hsid]
  exact hfind

/-- The permission check reads the cache at the active session id. -/
theorem check_eq {a : App} {sid : Uuid} (tool_name : String)
    (hsid : a.active_session_id = some sid) :
    a.check_tool_session_permission tool_name
      = assocFind a.tool_session_permissions (tool_name, sid) := by
  unfold App.check_tool_session_permission
  rw [hsid]
  rfl

/-- Appending a message does not affect permission checks. -/
theorem check_after_add (a : App) (author : Author) (parts : List ContentPart)
    (tool_name : String) :
    (a.add_message_to_active_session author parts).check_tool_session_permission
        tool_name
      = a.check_tool_session_permission tool_name := by
  unfold App.check_tool_session_permission
  rw [add_msg_active, add_msg_perms]

/-- C5: switching to a session present in the registry makes it active,
clears the pending slot, touches nothing else and returns true; switching to
an unknown id returns false and changes nothing. -/
theorem switch_session_spec (a : App) (session_id : Uuid) :
    ((assocFind a.sessions session_id).isSome = true →
      a.switch_session session_id =
        ({ a with active_session_id := some session_id
                  pending_tool_call_request := none }, true))
    ∧ ((assocFind a.sessions session_id).isSome = false →
      a.switch_session session_id = (a, false)) := by
  constructor
  · intro h
    unfold App.switch_session
    rw [if_pos h]
  · intro h
    unfold App.switch_session
    rw [if_neg (by simp [h])]

/-- Witness for C5 at a present id and an absent id. -/
theorem switch_session_spec_witness :
    (appFx.switch_session 7 =
      ({ appFx with active_session_id := some 7
                    pending_tool_call_request := none }, true))
    ∧ (appFx.switch_session 8 = (appFx, false)) :=
  ⟨(switch_session_spec appFx 7).1 rfl, (switch_session_spec appFx 8).2 rfl⟩

/-- The batch loop appends exactly the `toolMsgsFrom` messages, in request
order, to the active session. -/
theorem core_messages (env : ToolEnv) (calls : List ToolCallRequestPart) :
    ∀ (a : App) (sid : Uuid) (s : Session),
      a.active_session_id = some sid →
      assocFind a.sessions sid = some s →
      ((executeToolCallsCore env a calls).get_active_session).map Session.messages
        = some (s.messages ++ toolMsgsFrom env a.clock calls) := by
  induction calls with
  | nil =>
      intro a sid s hsid hfind
      unfold executeToolCallsCore
      rw [get_active_eq hsid hfind]
      simp [toolMsgsFrom]
  | cons req rest ih =>
      intro a sid s hsid hfind
      rw [show executeToolCallsCore env a (req :: rest)
            = executeToolCallsCore env (executeOneToolCall env a req) rest from rfl]
      rw [executeOne_eq, add_msg_eq a Author.tool _ hsid hfind]
      rw [ih
        { a with
            sessions := assocInsert a.sessions sid
              (s.add_message (Message.mk a.clock Author.tool
                [toolResultFor env req] a.clock) a.clock)
            clock := a.clock + 1 }
        sid
        (s.add_message (Message.mk a.clock Author.tool
          [toolResultFor env req] a.clock) a.clock)
        hsid (assocFind_insert_self a.sessions sid _)]
      simp [Session.add_message, toolMsgsFrom]

/-- C3: `execute_tool_calls_and_resend` processes the batch strictly
sequentially in list order, appending per request exactly one Tool-authored
message that holds a single ToolResult with the request's call id and tool
name, `is_error` false on success and true (with the error text, including
the unknown-tool error) on failure; a failure never stops the remaining
calls, and a non-empty batch is followed by exactly one re-invocation of
`advance`. -/
theorem execute_tool_calls_spec (env : ToolEnv) (oracle : Nat → LLMOutcome)
    (fuel idx : Nat) (a : App) (calls : List ToolCallRequestPart)
    {sid : Uuid} {s : Session}
    (hsid : a.active_session_id = some sid)
    (hfind : assocFind a.sessions sid = some s) :
    (((executeToolCallsCore env a calls).get_active_session).map Session.messages
      = some (s.messages ++ toolMsgsFrom env a.clock calls))
    ∧ (calls ≠ [] →
        execute_tool_calls_and_resend env oracle fuel a calls idx
          = send_current_session_to_llm env oracle fuel
              (executeToolCallsCore env a calls) idx)
    ∧ (calls = [] →
        execute_tool_calls_and_resend env oracle fuel a calls idx = (a, idx)) := by
  refine ⟨core_messages env calls a sid s hsid hfind, ?_, ?_⟩
  · intro h
    unfold execute_tool_calls_and_resend
    rw [if_neg (by simp [h])]
  · intro h
    subst h
    rfl

/-- Witness for C3 on a two-element batch whose second request names an
unknown tool. -/
theorem execute_tool_calls_spec_witness :
    ((((executeToolCallsCore envFx appFx [callLsFx, callDelFx]).get_active_session).map
        Session.messages
      = some (sessFx.messages ++ toolMsgsFrom envFx appFx.clock [callLsFx, callDelFx]))
    ∧ (execute_tool_calls_and_resend envFx oracleFailFx 0 appFx [callLsFx, callDelFx] 0
        = send_current_session_to_llm envFx oracleFailFx 0
            (executeToolCallsCore envFx appFx [callLsFx, callDelFx]) 0)) := by
  have h := execute_tool_calls_spec envFx oracleFailFx 0 0 appFx
    [callLsFx, callDelFx] rfl rfl
  exact ⟨h.1, h.2.1 (by simp)⟩

/-- C6 (amended): with no pending call, `advance` is a no-op when there is
no active session, or when the active session has no messages and an api key
is configured; with an empty active session and no api key the call instead
appends a System error message (see the counterexample). -/
theorem advance_noop_amended (env : ToolEnv) (oracle : Nat → LLMOutcome)
    (fuel : Nat) (a : App) (idx : Nat)
    (hp : a.pending_tool_call_request = none)
    (h : a.get_active_session = none
        ∨ ∃ s, a.get_active_session = some s ∧ s.messages = [] ∧ a.api_key.isSome) :
    send_current_session_to_llm env oracle fuel a idx = (a, idx) := by
  cases fuel with
  | zero => rfl
  | succ fuel =>
      unfold send_current_session_to_llm
      rw [if_neg (by rw [hp]; simp)]
      rcases h with h | ⟨s, hs, hm, hk⟩
      · split
        · unfold App.add_text_message_to_active_session
          rw [add_msg_no_active a _ _ h]
        · rw [h]
      · rcases Option.isSome_iff_exists.1 hk with ⟨k, hk2⟩
        rw [if_neg (by rw [hk2]; simp)]
        rw [hs]
        dsimp only
        rw [if_pos (by rw [hm]; rfl)]

/-- Witness for the amended C6 at an empty session with an api key. -/
theorem advance_noop_amended_witness :
    send_current_session_to_llm envFx oracleFailFx 1 appEmptyKeyFx 3
      = (appEmptyKeyFx, 3) :=
  advance_noop_amended envFx oracleFailFx 1 appEmptyKeyFx 3 rfl
    (Or.inr ⟨sessEmptyFx, rfl, rfl, rfl⟩)

/-- C6 counterexample: with no pending call and an empty active session but
no configured api key, `advance` appends a System error message, so it is
not a no-op as the claim states. -/
theorem advance_noop_counterexample :
    appNoKeyEmptyFx.pending_tool_call_request = none
    ∧ (appNoKeyEmptyFx.get_active_session).map Session.messages = some []
    ∧ ((send_current_session_to_llm envFx oracleFailFx 1 appNoKeyEmptyFx 0).1.get_active_session).map
        (fun s => s.messages.map Message.parts)
      = some [[ContentPart.text "Error: OpenAI API key not configured."]]
    ∧ ¬ (send_current_session_to_llm envFx oracleFailFx 1 appNoKeyEmptyFx 0
          = (appNoKeyEmptyFx, 0)) := by
  refine ⟨rfl, rfl, rfl, ?_⟩
  decide

/-- The decoded assistant turn is non-empty whenever tool calls are present. -/
theorem assistantParts_ne_nil (content : Option String) (first : ToolCallRequestPart)
    (more : List ToolCallRequestPart) :
    (assistantParts content (some (first :: more))).isEmpty = false := by
  unfold assistantParts
  cases content with
  | none => rfl
  | some t =>
      by_cases h : t.isEmpty <;> simp [h]

/-- Two consecutive appends to the active session stack two freshly stamped
messages at its end. -/
theorem add_msg_twice_messages (a : App) (au1 au2 : Author)
    (p1 p2 : List ContentPart) {sid : Uuid} {s : Session}
    (hsid : a.active_session_id = some sid)
    (hfind : assocFind a.sessions sid = some s) :
    ((((a.add_message_to_active_session au1 p1).add_message_to_active_session
        au2 p2).get_active_session).map Session.messages)
      = some (s.messages ++ [Message.mk a.clock au1 p1 a.clock,
          Message.mk (a.clock + 1) au2 p2 (a.clock + 1)]) := by
  rw [add_msg_eq a au1 p1 hsid hfind]
  rw [add_msg_eq
    { a with
        sessions := assocInsert a.sessions sid
          (s.add_message (Message.mk a.clock au1 p1 a.clock) a.clock)
        clock := a.clock + 1 }
    au2 p2 hsid (assocFind_insert_self a.sessions sid _)]
  unfold App.get_active_session
  rw [hsid]
  simp [assocFind_insert_self, Session.add_message]

/-- C4 (amended): when the model turn carries tool calls and the cached
permission for the first request's tool in the active session is Denied,
`advance` executes none of the requests; it appends the decoded assistant
message and then exactly one Tool-authored message holding a ToolResult for
the first request only, with `is_error = true` and output
"Tool execution denied by session policy.", and then re-invokes itself. -/
theorem advance_cached_denied (env : ToolEnv) (oracle : Nat → LLMOutcome)
    (fuel idx : Nat) (a : App) {sid : Uuid} {s : Session}
    {choice : ChatMessageResp} {tail : List ChatMessageResp}
    {first : ToolCallRequestPart} {more : List ToolCallRequestPart}
    (hp : a.pending_tool_call_request = none)
    (hk : a.api_key.isSome)
    (hsid : a.active_session_id = some sid)
    (hfind : assocFind a.sessions sid = some s)
    (hmsgs : s.messages.isEmpty = false)
    (horc : oracle idx = LLMOutcome.ok (choice :: tail))
    (hcalls : choice.tool_calls = some (first :: more))
    (hperm : assocFind a.tool_session_permissions (first.function.name, sid)
        = some ToolPermissionState.denied) :
    (send_current_session_to_llm env oracle (fuel + 1) a idx
      = send_current_session_to_llm env oracle fuel
          ((a.add_message_to_active_session Author.assistant
              (assistantParts choice.content choice.tool_calls)).add_message_to_active_session
            Author.tool
            [ContentPart.toolResult first.id first.function.name
              "Tool execution denied by session policy." true]) (idx + 1))
    ∧ ((((a.add_message_to_active_session Author.assistant
          (assistantParts choice.content choice.tool_calls)).add_message_to_active_session
            Author.tool
            [ContentPart.toolResult first.id first.function.name
              "Tool execution denied by session policy." true]).get_active_session).map
        Session.messages
      = some (s.messages
          ++ [Message.mk a.clock Author.assistant
                (assistantParts choice.content choice.tool_calls) a.clock,
              Message.mk (a.clock + 1) Author.tool
                [ContentPart.toolResult first.id first.function.name
                  "Tool execution denied by session policy." true] (a.clock + 1)])) := by
  constructor
  · conv_lhs => unfold send_current_session_to_llm
    rw [if_neg (by rw [hp]; simp)]
    rcases Option.isSome_iff_exists.1 hk with ⟨k, hk2⟩
    rw [if_neg (by rw [hk2]; simp)]
    rw [get_active_eq hsid hfind]
    dsimp only
    rw [if_neg (by rw [hmsgs]; simp)]
    rw [horc]
    dsimp only
    rw [hcalls]
    dsimp only
    rw [if_neg (by simp [assistantParts_ne_nil])]
    rw [check_after_add, check_eq first.function.name hsid, hperm]
  · exact add_msg_twice_messages a Author.assistant Author.tool _ _ hsid hfind

/-- Witness for the amended C4 at a concrete cached-Denied state. -/
theorem advance_cached_denied_witness :
    send_current_session_to_llm envFx oracleToolFx 1 appDeniedFx 0
      = send_current_session_to_llm envFx oracleToolFx 0
          ((appDeniedFx.add_message_to_active_session Author.assistant
              (assistantParts (some "") (some [callLsFx]))).add_message_to_active_session
            Author.tool
            [ContentPart.toolResult "c1" "ls"
              "Tool execution denied by session policy." true]) 1 :=
  (advance_cached_denied envFx oracleToolFx 0 0 appDeniedFx
    rfl rfl rfl rfl rfl rfl rfl rfl).1

/-- C4 counterexample: in the cached-Denied branch the appended ToolResult's
output is the literal "Tool execution denied by session policy.", not the
string "denied by session policy" stated by the claim. -/
theorem advance_cached_denied_counterexample :
    (((send_current_session_to_llm envFx oracleToolFx 1 appDeniedFx 0).1.get_active_session).map
        (fun s => s.messages.map Message.parts)
      = some [[ContentPart.text "hi"],
              [ContentPart.toolRequest "c1" "ls" "{}"],
              [ContentPart.toolResult "c1" "ls"
                "Tool execution denied by session policy." true]])
    ∧ ¬ (((send_current_session_to_llm envFx oracleToolFx 1 appDeniedFx 0).1.get_active_session).map
        (fun s => s.messages.map Message.parts)
      = some [[ContentPart.text "hi"],
              [ContentPart.toolRequest "c1" "ls" "{}"],
              [ContentPart.toolResult "c1" "ls" "denied by session policy" true]]) := by
  constructor
  · rfl
  · decide

/-- Folding a monotone sequence of `add_message` calls keeps the creation
time, never decreases `last_activity_at`, keeps the activity invariant, and
appends exactly the given messages in order. -/
theorem addAll_spec (l : List (Message × Nat)) :
    ∀ s : Session, s.created_at ≤ s.last_activity_at →
      List.Chain' (fun t1 t2 => t1 ≤ t2) (s.last_activity_at :: l.map Prod.snd) →
      ((s.addAll l).created_at = s.created_at)
      ∧ (s.last_activity_at ≤ (s.addAll l).last_activity_at)
      ∧ ((s.addAll l).created_at ≤ (s.addAll l).last_activity_at)
      ∧ ((s.addAll l).messages = s.messages ++ l.map Prod.fst) := by
  induction l with
  | nil =>
      intro s h1 h2
      exact ⟨rfl, le_refl _, h1, by simp [Session.addAll]⟩
  | cons p rest ih =>
      intro s h1 h2
      obtain ⟨m, t⟩ := p
      simp only [List.map_cons] at h2
      have hle : s.last_activity_at ≤ t := (List.chain'_cons.1 h2).1
      have hchain : List.Chain' (fun t1 t2 => t1 ≤ t2) (t :: rest.map Prod.snd) :=
        (List.chain'_cons.1 h2).2
      have hstep : s.addAll ((m, t) :: rest) = (s.add_message m t).addAll rest := rfl
      have hinv : (s.add_message m t).created_at ≤ (s.add_message m t).last_activity_at :=
        le_trans h1 hle
      have hc : (s.add_message m t).last_activity_at = t := rfl
      obtain ⟨ha, hb, hcc, hd⟩ := ih (s.add_message m t) hinv (by rw [hc]; exact hchain)
      rw [hstep]
      refine ⟨ha, ?_, hcc, ?_⟩
      · exact le_trans hle (hc ▸ hb)
      · rw [hd]
        simp [Session.add_message]

/-- C8: `last_activity_at` is set to the current time by each `add_message`
(exactly one update per call), stays at or above `created_at`, and is
monotonically non-decreasing across any sequence of `add_message` calls
driven by a monotone clock. -/
theorem add_message_last_activity (s : Session) (m : Message) (now : Nat)
    (l : List (Message × Nat))
    (hinv : s.created_at ≤ s.last_activity_at)
    (hchain : List.Chain' (fun t1 t2 => t1 ≤ t2)
        (s.last_activity_at :: l.map Prod.snd)) :
    ((s.add_message m now).last_activity_at = now)
    ∧ ((s.add_message m now).created_at = s.created_at)
    ∧ ((s.add_message m now).messages = s.messages ++ [m])
    ∧ ((s.addAll l).created_at = s.created_at)
    ∧ (s.last_activity_at ≤ (s.addAll l).last_activity_at)
    ∧ ((s.addAll l).created_at ≤ (s.addAll l).last_activity_at)
    ∧ ((s.addAll l).messages = s.messages ++ l.map Prod.fst) := by
  obtain ⟨ha, hb, hcc, hd⟩ := addAll_spec l s hinv hchain
  exact ⟨rfl, rfl, rfl, ha, hb, hcc, hd⟩

/-- Witness for C8 on a concrete session and a three-step monotone clock. -/
theorem add_message_last_activity_witness :
    ((sessEmptyFx.add_message msgHiFx 5).last_activity_at = 5)
    ∧ (sessEmptyFx.last_activity_at
        ≤ (sessEmptyFx.addAll [(msgHiFx, 2), (msgHiFx, 3)]).last_activity_at)
    ∧ ((sessEmptyFx.addAll [(msgHiFx, 2), (msgHiFx, 3)]).created_at
        ≤ (sessEmptyFx.addAll [(msgHiFx, 2), (msgHiFx, 3)]).last_activity_at) := by
  have h := add_message_last_activity sessEmptyFx msgHiFx 5
    [(msgHiFx, 2), (msgHiFx, 3)] (by decide)
    (by simp [List.chain'_cons, sessEmptyFx])
  exact ⟨h.1, h.2.2.2.2.1, h.2.2.2.2.2.1⟩

/-- If every text part of an assistant message is empty, the gathered text is
empty. -/
theorem gatherAssistant_text_empty (parts : List ContentPart)
    (h : ∀ t, ContentPart.text t ∈ parts → t = "") :
    (gatherAssistantFields parts).1 = "" := by
  induction parts with
  | nil => rfl
  | cons p rest ih =>
      have hrest := ih (fun t ht => h t (List.mem_cons.2 (Or.inr ht)))
      cases p with
      | text t =>
          have ht : t = "" := h t (List.mem_cons.2 (Or.inl rfl))
          simp [gatherAssistantFields, ht, hrest]
      | toolRequest id nm inp => simp [gatherAssistantFields, hrest]
      | toolResult id nm out e => simp [gatherAssistantFields, hrest]

/-- Converted user, system and tool messages always carry textual content. -/
theorem convert_content_nonassistant (m : Message)
    (h : m.author ≠ Author.assistant) :
    ((convert_message m).content).isSome := by
  unfold convert_message
  cases hau : m.author with
  | assistant => exact absurd hau h
  | user =>
      dsimp only [roleOf]
      split
      · simp
      · simp
  | system =>
      dsimp only [roleOf]
      split
      · simp
      · simp
  | tool =>
      dsimp only [roleOf]
      split
      · simp
      · simp

/-- Converted user, system and tool messages with no parts carry the empty
string as content. -/
theorem convert_content_empty (m : Message)
    (h : m.author ≠ Author.assistant) (hp : m.parts = []) :
    (convert_message m).content = some "" := by
  unfold convert_message
  rw [hp]
  cases hau : m.author with
  | assistant => exact absurd hau h
  | user => simp [roleOf, gatherTextOnly, show ("".isEmpty) = true from rfl]
  | system => simp [roleOf, gatherTextOnly, show ("".isEmpty) = true from rfl]
  | tool => simp [roleOf, gatherToolFields, show ("".isEmpty) = true from rfl]

/-- Converted assistant messages carrying tool calls and only empty text have
absent content. -/
theorem convert_content_assistant (m : Message)
    (hau : m.author = Author.assistant)
    (_htc : ((convert_message m).tool_calls).isSome)
    (htext : ∀ t, ContentPart.text t ∈ m.parts → t = "") :
    (convert_message m).content = none := by
  unfold convert_message
  rw [hau]
  dsimp only [roleOf]
  rw [gatherAssistant_text_empty m.parts htext]
  rw [if_pos (show ("".isEmpty) = true from rfl)]
  simp

/-- C9: `convert_messages` produces one wire message per input message, in
order; converted user, system and tool messages always have non-null content
(the empty string when the input carries no parts); converted assistant
messages that carry tool calls and no non-empty text have null content. -/
theorem convert_messages_spec (app_messages : List Message) :
    ((convert_messages app_messages).length = app_messages.length)
    ∧ (∀ i : Nat, (convert_messages app_messages)[i]?
        = (app_messages[i]?).map convert_message)
    ∧ (∀ m ∈ app_messages,
        (m.author ≠ Author.assistant → ((convert_message m).content).isSome)
        ∧ (m.author ≠ Author.assistant → m.parts = [] →
            (convert_message m).content = some "")
        ∧ (m.author = Author.assistant → ((convert_message m).tool_calls).isSome →
            (∀ t, ContentPart.text t ∈ m.parts → t = "") →
            (convert_message m).content = none)) := by
  refine ⟨by simp [convert_messages], ?_, ?_⟩
  · intro i
    simp [convert_messages, List.getElem?_map]
  · intro m hm
    exact ⟨fun h => convert_content_nonassistant m h,
           fun h hp => convert_content_empty m h hp,
           fun h1 h2 h3 => convert_content_assistant m h1 h2 h3⟩

/-- Witness for C9 on a user message and a tool-call-only assistant turn. -/
theorem convert_messages_spec_witness :
    ((convert_messages [msgHiFx, msgToolReqFx]).length = 2)
    ∧ ((convert_message msgHiFx).content).isSome
    ∧ (convert_message msgToolReqFx).content = none := by
  have h := convert_messages_spec [msgHiFx, msgToolReqFx]
  refine ⟨h.1, ?_, ?_⟩
  · exact (h.2.2 msgHiFx (by simp)).1 (by decide)
  · exact (h.2.2 msgToolReqFx (by simp)).2.2 (by decide) (by decide)
      (by intro t ht; simp [msgToolReqFx] at ht)

/-- Author serialization round-trips. -/
theorem decode_encode_author (da : DbAuthor) :
    decodeDbAuthor (encodeDbAuthor da) = some da := by
  cases da <;> rfl

/-- The author conversion pair is the identity. -/
theorem toAuthor_ofAuthor (au : Author) :
    (DbAuthor.ofAuthor au).toAuthor = au := by
  cases au <;> rfl

/-- Content-part serialization round-trips. -/
theorem decode_encode_part (dp : DbContentPart) :
    decodeDbContentPart (encodeDbContentPart dp) = some dp := by
  cases dp <;> rfl

/-- The content-part conversion pair is the identity. -/
theorem toPart_ofPart_map (parts : List ContentPart) :
    (parts.map DbContentPart.ofPart).map DbContentPart.toPart = parts := by
  induction parts with
  | nil => rfl
  | cons p r ih =>
      cases p <;> simp [DbContentPart.ofPart, DbContentPart.toPart, ih]

/-- The parts column round-trips through serialization. -/
theorem decode_encode_parts (l : List DbContentPart) :
    decodeDbPartList (l.map encodeDbContentPart) = some l := by
  induction l with
  | nil => rfl
  | cons d rest ih => simp [decodeDbPartList, decode_encode_part, ih]

/-- A saved row decodes back to the message it was built from. -/
theorem decodeMessageRow_encode (sid : Uuid) (m : Message) :
    decodeMessageRow (messageRowOf sid m) = some m := by
  unfold decodeMessageRow messageRowOf
  simp [decode_encode_author, decodeDbParts, ← List.map_map, decode_encode_parts,
    toAuthor_ofAuthor, toPart_ofPart_map]

/-- Decoding the saved rows of a message list recovers the list. -/
theorem decode_saved (sid : Uuid) (msgs : List Message) :
    decodeRows (msgs.map (messageRowOf sid)) = some msgs := by
  induction msgs with
  | nil => rfl
  | cons m rest ih => simp [decodeRows, decodeMessageRow_encode, ih]

/-- Saving a message list appends its rows to the table in order. -/
theorem save_fold (sid : Uuid) (msgs : List Message) :
    ∀ table : List MessageRow,
      List.foldl (fun t m => save_message t sid m) table msgs
        = table ++ msgs.map (messageRowOf sid) := by
  induction msgs with
  | nil =>
      intro table
      simp
  | cons m rest ih =>
      intro table
      rw [List.foldl_cons, ih]
      simp [save_message]

/-- Filtering the saved table keeps exactly this session's freshly saved
rows, in order. -/
theorem filter_saved (sid : Uuid) (table rows : List MessageRow)
    (htable : ∀ r ∈ table, r.session_id ≠ sid)
    (hrows : ∀ r ∈ rows, r.session_id = sid) :
    (table ++ rows).filter (fun r => r.session_id = sid) = rows := by
  rw [List.filter_append]
  have h1 : table.filter (fun r => r.session_id = sid) = [] := by
    rw [List.filter_eq_nil_iff]
    intro a ha
    simp [htable a ha]
  have h2 : rows.filter (fun r => r.session_id = sid) = rows := by
    rw [List.filter_eq_self]
    intro a ha
    simp [hrows a ha]
  rw [h1, h2, List.nil_append]

/-- C7: saving each message of a session in order and reloading returns the
identical ordered message list (same ids, authors, parts, timestamps),
provided the prior table has no rows of that session and the messages were
stamped by a non-decreasing clock. -/
theorem save_load_round_trip (sid : Uuid) (msgs : List Message)
    (table : List MessageRow)
    (htable : ∀ r ∈ table, r.session_id ≠ sid)
    (hsorted : List.Sorted (fun m1 m2 => m1.timestamp ≤ m2.timestamp) msgs) :
    load_messages_for_session
      (List.foldl (fun t m => save_message t sid m) table msgs) sid
      = some msgs := by
  rw [save_fold sid msgs table]
  unfold load_messages_for_session
  rw [filter_saved sid table _ htable
    (by
      intro r hr
      rcases List.mem_map.1 hr with ⟨m, hm, he⟩
      rw [← he]
      rfl)]
  have hrows : List.Sorted rowLe (msgs.map (messageRowOf sid)) := by
    rw [List.Sorted, List.pairwise_map]
    exact hsorted
  rw [List.Sorted.insertionSort_eq hrows]
  exact decode_saved sid msgs

/-- Witness for C7 on a two-message session over a foreign-row table. -/
theorem save_load_round_trip_witness :
    load_messages_for_session
      (List.foldl (fun t m => save_message t 7 m)
        [messageRowOf 9 msgHiFx] [msgHiFx, msgToolReqFx]) 7
      = some [msgHiFx, msgToolReqFx] :=
  save_load_round_trip 7 [msgHiFx, msgToolReqFx] [messageRowOf 9 msgHiFx]
    (by
      intro r hr
      simp only [List.mem_singleton] at hr
      rw [hr]
      decide)
    (by simp [msgHiFx, msgToolReqFx])

/-- Entries of the registry built by inserting sessions keyed by their own id
are keyed consistently. -/
theorem foldInsert_keyed (loaded : List Session) :
    ∀ acc : List (Uuid × Session), (∀ p ∈ acc, p.1 = p.2.id) →
      ∀ p ∈ List.foldl (fun m s => assocInsert m s.id s) acc loaded,
        p.1 = p.2.id := by
  induction loaded with
  | nil =>
      intro acc hacc p hp
      exact hacc p hp
  | cons s rest ih =>
      intro acc hacc p hp
      rw [List.foldl_cons] at hp
      refine ih (assocInsert acc s.id s) ?_ p hp
      intro q hq
      rcases mem_of_mem_assocInsert hq with h1 | h1
      · rw [h1]
      · exact hacc q h1

/-- Every registry value comes from the loaded list. -/
theorem foldInsert_values (loaded : List Session) :
    ∀ acc : List (Uuid × Session),
      ∀ p ∈ List.foldl (fun m s => assocInsert m s.id s) acc loaded,
        p.2 ∈ loaded ∨ p ∈ acc := by
  induction loaded with
  | nil =>
      intro acc p hp
      exact Or.inr hp
  | cons s rest ih =>
      intro acc p hp
      rw [List.foldl_cons] at hp
      rcases ih (assocInsert acc s.id s) p hp with h1 | h1
      · exact Or.inl (List.mem_cons.2 (Or.inr h1))
      · rcases mem_of_mem_assocInsert h1 with h2 | h2
        · rw [h2]
          exact Or.inl (List.mem_cons.2 (Or.inl rfl))
        · exact Or.inr h2

/-- The registry built by repeated insertion has distinct keys. -/
theorem foldInsert_nodup (loaded : List Session) :
    ∀ acc : List (Uuid × Session), (acc.map Prod.fst).Nodup →
      ((List.foldl (fun m s => assocInsert m s.id s) acc loaded).map Prod.fst).Nodup := by
  induction loaded with
  | nil =>
      intro acc hacc
      exact hacc
  | cons s rest ih =>
      intro acc hacc
      rw [List.foldl_cons]
      exact ih _ (assocInsert_keys_nodup s.id s hacc)

/-- Building the registry from a non-empty accumulator never empties it. -/
theorem foldInsert_ne_nil (loaded : List Session) :
    ∀ acc : List (Uuid × Session), acc ≠ [] →
      List.foldl (fun m s => assocInsert m s.id s) acc loaded ≠ [] := by
  induction loaded with
  | nil =>
      intro acc hacc
      exact hacc
  | cons s rest ih =>
      intro acc hacc
      rw [List.foldl_cons]
      refine ih _ ?_
      cases acc with
      | nil => simp [assocInsert]
      | cons q qs =>
          obtain ⟨k0, v0⟩ := q
          unfold assocInsert
          split <;> simp

/-- The registry of a non-empty loaded list is non-empty. -/
theorem foldInsert_ne_nil_of_loaded {loaded : List Session}
    (h : loaded ≠ []) :
    List.foldl (fun m s => assocInsert m s.id s) [] loaded ≠ [] := by
  cases loaded with
  | nil => exact absurd rfl h
  | cons s rest =>
      rw [List.foldl_cons]
      exact foldInsert_ne_nil rest _ (by simp [assocInsert])

/-- `max_by_key` returns an element of the list. -/
theorem maxBy_mem :
    ∀ (l : List Session) (acc m : Session),
      List.foldl
        (fun acc s =>
          match acc with
          | none => some s
          | some m =>
              if m.last_activity_at ≤ s.last_activity_at then some s else some m)
        (some acc) l = some m → acc = m ∨ m ∈ l := by
  intro l
  induction l with
  | nil =>
      intro acc m h
      rw [List.foldl_nil] at h
      exact Or.inl (Option.some_injective _ h)
  | cons s rest ih =>
      intro acc m h
      rw [List.foldl_cons] at h
      dsimp only at h
      by_cases hc : acc.last_activity_at ≤ s.last_activity_at
      · rw [if_pos hc] at h
        rcases ih s m h with h1 | h1
        · exact Or.inr (List.mem_cons.2 (Or.inl h1.symm))
        · exact Or.inr (List.mem_cons.2 (Or.inr h1))
      · rw [if_neg hc] at h
        rcases ih acc m h with h1 | h1
        · exact Or.inl h1
        · exact Or.inr (List.mem_cons.2 (Or.inr h1))

/-- `max_by_key` dominates the accumulator and every list element. -/
theorem maxBy_ge :
    ∀ (l : List Session) (acc m : Session),
      List.foldl
        (fun acc s =>
          match acc with
          | none => some s
          | some m =>
              if m.last_activity_at ≤ s.last_activity_at then some s else some m)
        (some acc) l = some m →
      acc.last_activity_at ≤ m.last_activity_at
      ∧ ∀ s ∈ l, s.last_activity_at ≤ m.last_activity_at := by
  intro l
  induction l with
  | nil =>
      intro acc m h
      rw [List.foldl_nil] at h
      have h1 : acc = m := Option.some_injective _ h
      subst h1
      exact ⟨le_refl _, by simp⟩
  | cons s rest ih =>
      intro acc m h
      rw [List.foldl_cons] at h
      dsimp only at h
      by_cases hc : acc.last_activity_at ≤ s.last_activity_at
      · rw [if_pos hc] at h
        obtain ⟨h1, h2⟩ := ih s m h
        refine ⟨le_trans hc h1, ?_⟩
        intro x hx
        rcases List.mem_cons.1 hx with h3 | h3
        · rw [h3]
          exact h1
        · exact h2 x h3
      · rw [if_neg hc] at h
        obtain ⟨h1, h2⟩ := ih acc m h
        refine ⟨h1, ?_⟩
        intro x hx
        rcases List.mem_cons.1 hx with h3 | h3
        · rw [h3]
          exact le_trans (le_of_lt (lt_of_not_le hc)) h1
        · exact h2 x h3

/-- `max_by_key` of a non-empty list yields a value. -/
theorem maxBy_isSome :
    ∀ (l : List Session) (acc : Session),
      (List.foldl
        (fun acc s =>
          match acc with
          | none => some s
          | some m =>
              if m.last_activity_at ≤ s.last_activity_at then some s else some m)
        (some acc) l).isSome := by
  intro l
  induction l with
  | nil =>
      intro acc
      rfl
  | cons s rest ih =>
      intro acc
      rw [List.foldl_cons]
      dsimp only
      by_cases hc : acc.last_activity_at ≤ s.last_activity_at
      · rw [if_pos hc]
        exact ih s
      · rw [if_neg hc]
        exact ih acc

/-- A `max_by_key` result is a list member dominating every element. -/
theorem maxByLastActivity_spec (l : List Session) (m : Session)
    (h : maxByLastActivity l = some m) :
    m ∈ l ∧ ∀ s ∈ l, s.last_activity_at ≤ m.last_activity_at := by
  cases l with
  | nil => simp [maxByLastActivity] at h
  | cons s rest =>
      unfold maxByLastActivity at h
      rw [List.foldl_cons] at h
      dsimp only at h
      obtain h1 := maxBy_mem rest s m h
      obtain ⟨h2, h3⟩ := maxBy_ge rest s m h
      constructor
      · rcases h1 with h4 | h4
        · rw [← h4]
          exact List.mem_cons.2 (Or.inl rfl)
        · exact List.mem_cons.2 (Or.inr h4)
      · intro x hx
        rcases List.mem_cons.1 hx with h4 | h4
        · rw [h4]
          exact h2
        · exact h3 x h4

/-- `max_by_key` over a non-empty list is defined. -/
theorem maxByLastActivity_isSome (l : List Session) (h : l ≠ []) :
    (maxByLastActivity l).isSome := by
  cases l with
  | nil => exact absurd rfl h
  | cons s rest =>
      unfold maxByLastActivity
      rw [List.foldl_cons]
      dsimp only
      exact maxBy_isSome rest s

/-- C10: whenever `App::new` returns, `active_session_id` is Some and refers
to a session in the registry: an empty store yields a fresh active session
titled "Default Session", a non-empty store makes a loaded session with the
greatest `last_activity_at` active. -/
theorem app_mkNew_active (loaded : List Session) (api_key : Option String)
    (clock0 : Nat) :
    ∃ sid sact,
      (App.mkNew loaded api_key clock0).active_session_id = some sid
      ∧ assocFind (App.mkNew loaded api_key clock0).sessions sid = some sact
      ∧ (loaded = [] → sact.title = "Default Session")
      ∧ (loaded ≠ [] → sact ∈ loaded)
      ∧ (∀ p ∈ (App.mkNew loaded api_key clock0).sessions,
          p.2.last_activity_at ≤ sact.last_activity_at) := by
  by_cases hl : loaded = []
  · subst hl
    refine ⟨clock0, Session.mkNew (some "Default Session") clock0 clock0,
      rfl, ?_, fun _ => rfl, fun hne => absurd rfl hne, ?_⟩
    · exact assocFind_insert_self [] clock0 _
    · intro p hp
      have hp2 : p = (clock0, Session.mkNew (some "Default Session") clock0 clock0) := by
        simpa [App.mkNew, App.new_session, Session.mkNew, assocInsert] using hp
      rw [hp2]
  · have hreg : (List.foldl (fun m s => assocInsert m s.id s) [] loaded) ≠ [] :=
      foldInsert_ne_nil_of_loaded hl
    have hie : (List.foldl (fun m s => assocInsert m s.id s) [] loaded).isEmpty = false := by
      cases he : List.foldl (fun m s => assocInsert m s.id s) [] loaded with
      | nil => exact absurd he hreg
      | cons q qs => rfl
    have hvals : (List.foldl (fun m s => assocInsert m s.id s) [] loaded).map Prod.snd ≠ [] := by
      intro hh
      exact hreg (List.map_eq_nil_iff.1 hh)
    have hsome := maxByLastActivity_isSome _ hvals
    rcases Option.isSome_iff_exists.1 hsome with ⟨m, hm⟩
    obtain ⟨hmem, hge⟩ := maxByLastActivity_spec _ m hm
    rcases List.mem_map.1 hmem with ⟨p, hp, hpm⟩
    have hkey : p.1 = p.2.id := foldInsert_keyed loaded [] (by simp) p hp
    have hnd : ((List.foldl (fun m s => assocInsert m s.id s) [] loaded).map Prod.fst).Nodup :=
      foldInsert_nodup loaded [] (by simp)
    have hmementry : (m.id, m) ∈ List.foldl (fun m s => assocInsert m s.id s) [] loaded := by
      have hp2 : p = (m.id, m) := by
        obtain ⟨p1, p2⟩ := p
        dsimp only at hpm hkey
        rw [hpm] at hkey
        rw [hkey, hpm]
      rw [← hp2]
      exact hp
    have hfind : assocFind (List.foldl (fun m s => assocInsert m s.id s) [] loaded) m.id = some m :=
      assocFind_of_mem_nodup hnd hmementry
    have happ : App.mkNew loaded api_key clock0
        = { sessions := List.foldl (fun m s => assocInsert m s.id s) [] loaded
            active_session_id := some m.id
            tool_session_permissions := []
            pending_tool_call_request := none
            api_key := api_key
            clock := clock0 } := by
      unfold App.mkNew
      rw [if_neg (by rw [hie]; simp)]
      rw [hm]
      rw [if_neg (by simp)]
      rfl
    refine ⟨m.id, m, ?_, ?_, fun he => absurd he hl, fun _ => ?_, ?_⟩
    · rw [happ]
    · rw [happ]
      exact hfind
    · rcases foldInsert_values loaded [] p hp with h1 | h1
      · rw [← hpm]
        exact h1
      · simp at h1
    · intro q hq
      rw [happ] at hq
      exact hge q.2 (List.mem_map.2 ⟨q, hq, rfl⟩)

/-- Witness for C10 at a one-session store. -/
theorem app_mkNew_active_witness :
    ((App.mkNew [sessFx] none 0).active_session_id).isSome := by
  obtain ⟨sid, sact, h1, h2, h3, h4, h5⟩ := app_mkNew_active [sessFx] none 0
  rw [h1]
  rfl
